import Mathlib

/-
Verification of the TaskParser / Stats pipeline of app.py (task-dashboard
repository).  Strings are modelled as List Char (Python str), calendar dates
as year/month/day triples (Python datetime dates; "YYYY-MM-DD" strings
compare lexicographically exactly as the triples compare), and Python float
arithmetic in the scoring engine as exact rational arithmetic.
-/

/- The core rational operations are shipped irreducible; re-marking them
semireducible lets concrete scoring values be settled by kernel
evaluation. -/
attribute [local semireducible] Rat.add Rat.sub Rat.mul Rat.inv

namespace TaskDash

/-! ### Python string primitives -/

/-- Whitespace as matched by Python str.strip() and regex backslash-s
(ASCII range; the inputs of interest are ASCII/CJK text). -/
def isPySpace (c : Char) : Bool :=
  c = ' ' || c = '\t' || c = '\n' || c = '\r' || c = '\x0b' || c = '\x0c'

/-- Python str.strip(). -/
def pyTrim (s : List Char) : List Char :=
  ((s.dropWhile isPySpace).reverse.dropWhile isPySpace).reverse

/-- Python str.lower() (ASCII case mapping). -/
def pyLower (s : List Char) : List Char := s.map Char.toLower

def startsWithSeq : List Char → List Char → Bool
  | [], _ => true
  | _ :: _, [] => false
  | p :: ps, c :: cs => (c = p) && startsWithSeq ps cs

/-- Substring test (Python "pat in s"). -/
def containsSeq (pat : List Char) : List Char → Bool
  | [] => pat.isEmpty
  | c :: r => startsWithSeq pat (c :: r) || containsSeq pat r

/-- Case-insensitive literal prefix test (pattern given lower-case),
modelling re.IGNORECASE literal matching. -/
def ciPre : List Char → List Char → Bool
  | [], _ => true
  | _ :: _, [] => false
  | p :: ps, c :: cs => (c.toLower = p) && ciPre ps cs

/-- Python str.split for a class of single-character separators: empty
pieces are kept, so the result always has (number of separators + 1)
pieces. -/
def splitChars (seps : List Char) : List Char → List (List Char)
  | [] => [[]]
  | c :: r =>
    if seps.contains c then [] :: splitChars seps r
    else
      match splitChars seps r with
      | h :: t => (c :: h) :: t
      | [] => [[c]]

def splitChar (sep : Char) (s : List Char) : List (List Char) :=
  splitChars [sep] s

/-- Worker for collapseWs: the flag records whether the previous
character was whitespace (so the run was already replaced). -/
def collapseWsAux (inRun : Bool) : List Char → List Char
  | [] => []
  | c :: r =>
    if isPySpace c then
      (if inRun then collapseWsAux true r else ' ' :: collapseWsAux true r)
    else c :: collapseWsAux false r

/-- re.sub(backslash-s+, " ", s): every whitespace run becomes one space. -/
def collapseWs (s : List Char) : List Char := collapseWsAux false s

/-- Worker for removeBrackets; the fuel only bounds the recursion depth
(each step consumes at least one character, so a fuel of the initial
length never runs out). -/
def removeBracketsFuel : Nat → List Char → List Char
  | 0, s => s
  | _ + 1, [] => []
  | fuel + 1, c :: r =>
    if c = '[' then
      match r.findIdx? (fun x => x = ']') with
      | some j => removeBracketsFuel fuel (r.drop (j + 1))
      | none => '[' :: removeBracketsFuel fuel r
    else c :: removeBracketsFuel fuel r

/-- re.sub with the non-greedy bracket pattern, removing every shortest
bracketed span; an unmatched opening bracket is kept. -/
def removeBrackets (s : List Char) : List Char := removeBracketsFuel s.length s

def digitVal (c : Char) : Nat := c.toNat - ('0').toNat

def parseDigits (s : List Char) : Option Nat :=
  if s = [] then none
  else if s.all Char.isDigit then
    some (s.foldl (fun a c => a * 10 + digitVal c) 0)
  else none

/-- Python int(str): optional surrounding whitespace, optional sign, a
digit run (digit-group underscores are not modelled: the tokens reaching
int() here come from digit-only regex captures). -/
def parsePyInt (s : List Char) : Option Int :=
  match pyTrim s with
  | '+' :: r => (parseDigits r).map (fun n => (n : Int))
  | '-' :: r => (parseDigits r).map (fun n => -(n : Int))
  | r => (parseDigits r).map (fun n => (n : Int))

/-- Python string ordering (code-point lexicographic), for sorted(). -/
def strLt : List Char → List Char → Bool
  | [], [] => false
  | [], _ :: _ => true
  | _ :: _, [] => false
  | a :: as, b :: bs => a.toNat < b.toNat || (a = b && strLt as bs)

def insStr (x : List Char) : List (List Char) → List (List Char)
  | [] => [x]
  | y :: ys => if strLt x y then x :: y :: ys else y :: insStr x ys

/-- Stable ascending sort by code-point order; agrees with Python
sorted() on strings. -/
def sortStrs (l : List (List Char)) : List (List Char) :=
  l.foldl (fun acc x => insStr x acc) []

def joinWith (sep : Char) : List (List Char) → List Char
  | [] => []
  | [x] => x
  | x :: y :: r => x ++ sep :: joinWith sep (y :: r)

def dedupFirstAux {α : Type} [DecidableEq α] (seen : List α) : List α → List α
  | [] => []
  | x :: r => if x ∈ seen then dedupFirstAux seen r else x :: dedupFirstAux (x :: seen) r

/-- First-occurrence deduplication (the contents of a Python set built by
repeated insertion, in a canonical order). -/
def dedupFirst {α : Type} [DecidableEq α] (l : List α) : List α := dedupFirstAux [] l

def headIs (s : List Char) (c : Char) : Bool :=
  match s with
  | x :: _ => x = c
  | [] => false

/-! ### Calendar dates (Python datetime) -/

structure Date where
  year : Nat
  month : Nat
  day : Nat
deriving DecidableEq, Repr

def isLeap (y : Nat) : Bool := y % 4 = 0 && (y % 100 ≠ 0 || y % 400 = 0)

def daysInMonth (y m : Nat) : Nat :=
  if m = 1 then 31 else if m = 2 then (if isLeap y then 29 else 28)
  else if m = 3 then 31 else if m = 4 then 30 else if m = 5 then 31
  else if m = 6 then 30 else if m = 7 then 31 else if m = 8 then 31
  else if m = 9 then 30 else if m = 10 then 31 else if m = 11 then 30
  else if m = 12 then 31 else 0

/-- Day number of a Gregorian date (standard civil-days formula); two
datetime values subtract to the difference of their civil numbers. -/
def civil (dt : Date) : Nat :=
  let y := if dt.month ≤ 2 then dt.year - 1 else dt.year
  let era := y / 400
  let yoe := y % 400
  let mp := (dt.month + 9) % 12
  let doy := (153 * mp + 2) / 5 + dt.day - 1
  let doe := yoe * 365 + yoe / 4 - yoe / 100 + doy
  era * 146097 + doe

/-- Stats._calc_days_between: (end - start).days + 1. -/
def daysBetween (a b : Date) : Int := ((civil b : Int) - (civil a : Int)) + 1

/-- datetime(year, month, day): None models the ValueError raised on an
out-of-range component (caught by the calculator's except handler). -/
def mkDateI (y m d : Int) : Option Date :=
  if 1 ≤ y ∧ y ≤ 9999 ∧ 1 ≤ m ∧ m ≤ 12 ∧ 1 ≤ d ∧ d ≤ (daysInMonth y.toNat m.toNat : Int)
  then some ⟨y.toNat, m.toNat, d.toNat⟩ else none

def dateLt (a b : Date) : Bool :=
  a.year < b.year || (a.year = b.year &&
    (a.month < b.month || (a.month = b.month && a.day < b.day)))

def insDate (x : Date) : List Date → List Date
  | [] => [x]
  | y :: ys => if dateLt x y then x :: y :: ys else y :: insDate x ys

/-- sorted() over the distinct mail dates ("YYYY-MM-DD" strings sort
lexicographically exactly as the triples sort). -/
def sortDates (l : List Date) : List Date :=
  l.foldl (fun acc x => insDate x acc) []

/-! ### Stats._calc_overdue_days_v2 -/

/-- Stats._calc_overdue_days_v2 (app.py lines 494-519): replace '/' by
'-', strip, split on '-'; a two-part token is month/day with the year
taken from first_seen and rolled forward one year when the candidate is
more than 180 days before first_seen; a three-part token is
year/month/day with years below 100 shifted by 2000; anything else, or
any component failure, yields 0.  Result is max(0, end - due in days). -/
def calcOverdueV2 (due : List Char) (first : Date) (endD : Date) : Nat :=
  if due = [] then 0
  else
    let s := pyTrim (due.map (fun c => if c = '/' then '-' else c))
    match splitChar '-' s with
    | [p1, p2] =>
      match parsePyInt p1, parsePyInt p2 with
      | some m, some d =>
        match mkDateI (first.year : Int) m d with
        | some cand =>
          match (if (civil cand : Int) < (civil first : Int) - 180
                 then mkDateI ((first.year : Int) + 1) m d else some cand) with
          | some r => ((civil endD : Int) - (civil r : Int)).toNat
          | none => 0
        | none => 0
      | _, _ => 0
    | [p1, p2, p3] =>
      match parsePyInt p1, parsePyInt p2, parsePyInt p3 with
      | some y, some m, some d =>
        match mkDateI (if y < 100 then y + 2000 else y) m d with
        | some r => ((civil endD : Int) - (civil r : Int)).toNat
        | none => 0
      | _, _, _ => 0
    | _ => 0

/-- The year-resolution rule the two-part branch of
Stats._calc_overdue_days_v2 actually applies: the candidate date uses
first_seen's year and is rolled forward one year exactly when it lies
more than 180 days before first_seen; end_date plays no part. -/
def resolveTwoPart (m d : Int) (first : Date) : Option Date :=
  match mkDateI (first.year : Int) m d with
  | none => none
  | some cand =>
    if (civil cand : Int) < (civil first : Int) - 180
    then mkDateI ((first.year : Int) + 1) m d
    else some cand

/-- Modelled from the spec: the year-resolution procedure claimed in
section 4.4 for still-open tasks - build the candidate from first_seen's
year, roll forward one year if it is more than 180 days before
first_seen, apply the same forward test against the end date ("today"),
and additionally roll the year backward one if the candidate is more
than 180 days in the end date's future. -/
def specOverdueC4 (due : List Char) (first endD : Date) : Nat :=
  match splitChar '-' (pyTrim (due.map (fun c => if c = '/' then '-' else c))) with
  | [p1, p2] =>
    match parsePyInt p1, parsePyInt p2 with
    | some m, some d =>
      match mkDateI (first.year : Int) m d with
      | some c0 =>
        let y1 : Int := if (civil c0 : Int) < (civil first : Int) - 180
                        then (first.year : Int) + 1 else (first.year : Int)
        match mkDateI y1 m d with
        | some c1 =>
          let y2 : Int := if (civil c1 : Int) < (civil endD : Int) - 180 then y1 + 1 else y1
          match mkDateI y2 m d with
          | some c2 =>
            let y3 : Int := if (civil endD : Int) + 180 < (civil c2 : Int) then y2 - 1 else y2
            match mkDateI y3 m d with
            | some c3 => ((civil endD : Int) - (civil c3 : Int)).toNat
            | none => 0
          | none => 0
        | none => 0
      | none => 0
    | _, _ => 0
  | _ => 0

/-! ### TaskParser._parse_task -/

inductive Priority | high | medium | normal
deriving DecidableEq, Repr

/-- PRIORITY_WEIGHTS / priority_order: high 3, medium 2, normal 1. -/
def prioNum : Priority → Nat
  | .high => 3
  | .medium => 2
  | .normal => 1

def prioOfStars (k : Nat) : Priority :=
  if k = 3 then .high else if k = 2 then .medium else .normal

/-- The leading-asterisk priority prefix: regex 1-to-3 stars, whitespace,
then a non-empty remainder (group 2), which the code then strips.  With
backtracking, a content of only stars-and-spaces matches with one star
left in the remainder; a single star alone does not match at all. -/
def starSplit (c : List Char) : Priority × List Char :=
  let n := (c.takeWhile (fun x => x = '*')).length
  if n = 0 then (Priority.normal, c)
  else
    let k := min n 3
    let rest := (c.drop k).dropWhile isPySpace
    if rest ≠ [] then (prioOfStars k, pyTrim rest)
    else if 2 ≤ n then (prioOfStars (n - 1), pyTrim (c.drop (n - 1)))
    else (Priority.normal, c)

def isColonSpace (c : Char) : Bool := c = ':' || isPySpace c

/-- The capture of the bracketed-Due regex once the opening bracket, the
case-insensitive "due" and a following ']' are fixed: chunk is the
(non-empty, ']'-free) text between "due" and the first ']'.  Greedy
matching of optional spaces, the optional "date" and the colon/space run
determines the group, with one character handed back when the mandatory
non-empty capture would otherwise be empty. -/
def dueGroup (chunk : List Char) : List Char :=
  let a := chunk.takeWhile isPySpace
  let r := chunk.drop a.length
  if ciPre (("date").toList) r then
    let rd := r.drop 4
    let cs := rd.takeWhile isColonSpace
    let g := rd.drop cs.length
    if g ≠ [] then g
    else if rd ≠ [] then [rd.getLastD ' ']
    else r
  else
    let cs := r.takeWhile isColonSpace
    let g := r.drop cs.length
    if g ≠ [] then g
    else if r ≠ [] then [r.getLastD ' ']
    else [chunk.getLastD ' ']

/-- Attempt of the bracketed-Due regex at the head of s; returns the
captured group and the matched length. -/
def matchDueAt (s : List Char) : Option (List Char × Nat) :=
  match s with
  | '[' :: r =>
    if ciPre (("due").toList) r then
      match (r.drop 3).findIdx? (fun c => c = ']') with
      | some j => if j = 0 then none else some (dueGroup ((r.drop 3).take j), j + 5)
      | none => none
    else none
  | _ => none

def searchDueAux : List Char → Nat → Option (Nat × Nat × List Char)
  | [], _ => none
  | c :: r, i =>
    match matchDueAt (c :: r) with
    | some (g, len) => some (i, i + len, g)
    | none => searchDueAux r (i + 1)

/-- re.search of the bracketed Due token (leftmost match): start index,
end index, captured payload. -/
def searchDue (s : List Char) : Option (Nat × Nat × List Char) := searchDueAux s 0

def bareAfterSlash (r2 : List Char) : Option (List Char × Nat) :=
  let k2a := min ((r2.takeWhile Char.isDigit).length) 2
  if k2a = 0 then none
  else if headIs (r2.drop k2a) ']' then some (r2.take k2a, k2a)
  else if k2a = 2 && headIs (r2.drop 1) ']' then some (r2.take 1, 1)
  else none

def bareTryK1 (r : List Char) (k1 : Nat) : Option (List Char × Nat) :=
  if headIs (r.drop k1) '/' then
    match bareAfterSlash (r.drop (k1 + 1)) with
    | some (d2, k2) => some (r.take k1 ++ '/' :: d2, k1 + k2 + 3)
    | none => none
  else none

/-- Attempt of the bare bracketed month/day regex (1-2 digits, slash,
1-2 digits, with greedy digit runs and backtracking) at the head of s. -/
def matchBareAt (s : List Char) : Option (List Char × Nat) :=
  match s with
  | '[' :: r =>
    let k1a := min ((r.takeWhile Char.isDigit).length) 2
    if k1a = 0 then none
    else
      match bareTryK1 r k1a with
      | some res => some res
      | none => if k1a = 2 then bareTryK1 r 1 else none
  | _ => none

def searchBareAux : List Char → Nat → Option (Nat × Nat × List Char)
  | [], _ => none
  | c :: r, i =>
    match matchBareAt (c :: r) with
    | some (g, len) => some (i, i + len, g)
    | none => searchBareAux r (i + 1)

def searchBare (s : List Char) : Option (Nat × Nat × List Char) := searchBareAux s 0

/-- re.sub removing the anchored optional "date" plus colon/space run
from the front of the captured due payload. -/
def stripDueLead (s : List Char) : List Char :=
  if ciPre (("date").toList) s then (s.drop 4).dropWhile isColonSpace
  else s.dropWhile isColonSpace

def tryStatusLit (w : List Char) (r : List Char) : Option (List Char × Nat) :=
  if ciPre w r && headIs (r.drop w.length) ']' then some (r.take w.length, w.length + 2)
  else none

/-- Attempt of the bracketed status regex (alternatives pending, resolved,
done, completed, or "status" followed by at least one more character up to
the closing bracket) at the head of s. -/
def matchStatusAt (s : List Char) : Option (List Char × Nat) :=
  match s with
  | '[' :: r =>
    match tryStatusLit (("pending").toList) r with
    | some res => some res
    | none =>
      match tryStatusLit (("resolved").toList) r with
      | some res => some res
      | none =>
        match tryStatusLit (("done").toList) r with
        | some res => some res
        | none =>
          match tryStatusLit (("completed").toList) r with
          | some res => some res
          | none =>
            if ciPre (("status").toList) r then
              match (r.drop 6).findIdx? (fun c => c = ']') with
              | some j => if j = 0 then none else some (r.take (6 + j), j + 8)
              | none => none
            else none
  | _ => none

def searchStatusAux : List Char → Nat → Option (Nat × Nat × List Char)
  | [], _ => none
  | c :: r, i =>
    match matchStatusAt (c :: r) with
    | some (g, len) => some (i, i + len, g)
    | none => searchStatusAux r (i + 1)

def searchStatus (s : List Char) : Option (Nat × Nat × List Char) := searchStatusAux s 0

def dashChar (c : Char) : Bool := c = '-' || c = '–' || c = '—'

/-- Leftmost match of the dash-separator pattern (optional spaces, one
dash variant, optional spaces): returns (start, end) of the matched
span. -/
def findDashSepAux : List Char → Nat → Option (Nat × Nat)
  | [], _ => none
  | c :: r, i =>
    if dashChar c then some (i, i + 1 + (r.takeWhile isPySpace).length)
    else if isPySpace c then
      let sp := 1 + (r.takeWhile isPySpace).length
      match (c :: r).drop sp with
      | x :: tail =>
        if dashChar x then some (i, i + sp + 1 + (tail.takeWhile isPySpace).length)
        else findDashSepAux r (i + 1)
      | [] => findDashSepAux r (i + 1)
    else findDashSepAux r (i + 1)

/-- re.split on the dash separator with maxsplit 1; when no dash variant
is present, fall back to re.split on the first whitespace run
(maxsplit 1).  A one-element result means neither separator occurred. -/
def splitDashOrWs (s : List Char) : List (List Char) :=
  match findDashSepAux s 0 with
  | some (a, b) => [s.take a, s.drop b]
  | none =>
    match s.findIdx? isPySpace with
    | some i => [s.take i, (s.drop i).dropWhile isPySpace]
    | none => [s]

def isCJKChar (c : Char) : Bool := 0x4e00 ≤ c.toNat && c.toNat ≤ 0x9fff

def isAsciiAlphaCh (c : Char) : Bool :=
  ('A' ≤ c && c ≤ 'Z') || ('a' ≤ c && c ≤ 'z')

def isAsciiWordCh (c : Char) : Bool :=
  isAsciiAlphaCh c || ('0' ≤ c && c ≤ '9') || c = '_'

/-- A valid owner token: 1-10 CJK ideographs, or an ASCII identifier of
at most 20 characters starting with a letter (both full matches). -/
def validMember (p : List Char) : Bool :=
  (decide (p ≠ []) && p.length ≤ 10 && p.all isCJKChar) ||
  (match p with
   | c :: r => isAsciiAlphaCh c && r.length ≤ 19 && r.all isAsciiWordCh
   | [] => false)

/-- TaskParser._parse_members: split on '/', ',', '、', strip each piece,
keep the valid owner tokens. -/
def parseMembers (s : List Char) : List (List Char) :=
  if s = [] then []
  else
    (splitChars ['/', ',', '、'] s).filterMap (fun p =>
      let q := pyTrim p
      if q = [] then none else if validMember q then some q else none)

/-- The structured task candidate built by TaskParser._parse_task.  The
Task dataclass's remaining fields (mail_date, mail_subject, mail_id,
attachments) are pass-through metadata supplied by the caller and play no
part in any claim. -/
structure PTask where
  title : List Char
  owners : List (List Char)
  priority : Priority
  due_date : List Char
  status : Option (List Char)
  moduleTag : List Char
deriving DecidableEq, Repr

/-- Continuation of TaskParser._parse_task after a due token was found at
span [s0, e0) with captured payload grp, in the star-stripped content
c1. -/
def parseTaskAfterDue (c1 : List Char) (pr : Priority) (s0 e0 : Nat) (grp : List Char) :
    Option PTask :=
  let dd := pyTrim (stripDueLead (pyTrim grp))
  let c2 := c1.take s0 ++ c1.drop e0
  let stRes := searchStatus c2
  let stat : Option (List Char) :=
    match stRes with
    | some (_, _, g1) =>
      let sv := pyLower (pyTrim g1)
      some (if sv.contains ':' then pyTrim ((splitChar ':' sv).getLastD []) else sv)
    | none => none
  let c3 :=
    match stRes with
    | some (s1, e1, _) => c2.take s1 ++ c2.drop e1
    | none => c2
  match splitDashOrWs c3 with
  | [p0, p1] =>
    let membersStr := pyTrim (removeBrackets (pyTrim p1))
    let owners := parseMembers membersStr
    if owners = [] then none
    else
      let tn := pyTrim (removeBrackets (pyTrim (collapseWs (pyTrim p0))))
      if tn = [] ∨ tn.length < 2 then none
      else some { title := tn, owners := owners, priority := pr, due_date := dd,
                  status := stat, moduleTag := [] }
  | _ => none

/-- TaskParser._parse_task (app.py lines 324-372): strip the star
priority prefix, find a due token (bracketed Due form, else bare
month/day) or reject, extract an optional status bracket, split the rest
into title and owner text, parse owners (rejecting when none are valid),
clean the title (rejecting titles shorter than 2 characters). -/
def parseTask (content : List Char) : Option PTask :=
  let pr := (starSplit content).1
  let c1 := (starSplit content).2
  match searchDue c1 with
  | some (s0, e0, grp) => parseTaskAfterDue c1 pr s0 e0 grp
  | none =>
    match searchBare c1 with
    | some (s0, e0, grp) => parseTaskAfterDue c1 pr s0 e0 grp
    | none => none

/-! ### TaskParser.parse (line loop) -/

def groupsLenFuel : Nat → List Char → Nat
  | 0, _ => 0
  | _ + 1, [] => 0
  | fuel + 1, c :: r =>
    if c = '[' then
      match r.findIdx? (fun x => x = ']') with
      | some j => if j = 0 then 0 else (j + 2) + groupsLenFuel fuel (r.drop (j + 1))
      | none => 0
    else 0

/-- Total length of the maximal run of bracket groups at the head of the
line (each group: '[', one or more non-']' characters, ']'); the fuel
only bounds the recursion depth. -/
def groupsLen (s : List Char) : Nat := groupsLenFuel s.length s

/-- The whole-line bracket-group pattern: one or more adjacent bracket
groups followed only by whitespace; returns the groups (regex group 1). -/
def moduleMatch (line : List Char) : Option (List Char) :=
  let g := groupsLen line
  if g = 0 then none
  else if (line.drop g).all isPySpace then some (line.take g) else none

/-- The first bracket group of a matched module line. -/
def firstBracketGroup (mods : List Char) : List Char :=
  match mods with
  | '[' :: r =>
    match r.findIdx? (fun x => x = ']') with
    | some j => '[' :: (r.take j ++ [']'])
    | none => []
  | _ => []

/-- Python str.strip with the character set "[]". -/
def stripSquare (s : List Char) : List Char :=
  ((s.dropWhile (fun c => c = '[' || c = ']')).reverse.dropWhile
    (fun c => c = '[' || c = ']')).reverse

/-- Prefix pattern: optional spaces, the word w, optional spaces, then a
colon. -/
def startsStatusWord (il : List Char) (w : List Char) : Bool :=
  let t := il.dropWhile isPySpace
  startsWithSeq w t && headIs ((t.drop w.length).dropWhile isPySpace) ':'

/-- Whole-string pattern: optional spaces, the word w, optional spaces. -/
def exactWordPat (il : List Char) (w : List Char) : Bool :=
  let t := il.dropWhile isPySpace
  startsWithSeq w t && ((t.drop w.length).all isPySpace)

/-- Whole-string pattern for "in progress" with optional inner spaces. -/
def inProgressPat (il : List Char) : Bool :=
  let t := il.dropWhile isPySpace
  startsWithSeq (("in").toList) t &&
    (let t2 := (t.drop 2).dropWhile isPySpace
     startsWithSeq (("progress").toList) t2 && ((t2.drop 8).all isPySpace))

def allDigits (s : List Char) : Bool := decide (s ≠ []) && s.all Char.isDigit

def is8Digits (s : List Char) : Bool := s.length = 8 && s.all Char.isDigit

def isYMDPat (s : List Char) : Bool :=
  match splitChars ['-', '/'] s with
  | [a, b, c] =>
    a.length = 4 && a.all Char.isDigit && allDigits b && b.length ≤ 2 &&
      allDigits c && c.length ≤ 2
  | _ => false

def isMDPat (s : List Char) : Bool :=
  match splitChars ['-', '/'] s with
  | [a, b] => allDigits a && a.length ≤ 2 && allDigits b && b.length ≤ 2
  | _ => false

def isMDYPat (s : List Char) : Bool :=
  match splitChars ['-', '/'] s with
  | [a, b, c] =>
    allDigits a && a.length ≤ 2 && allDigits b && b.length ≤ 2 &&
      allDigits c && 2 ≤ c.length && c.length ≤ 4
  | _ => false

/-- TaskParser._is_valid_module: the first bracket group's inner text
(brackets stripped, then whitespace-stripped) must not be a status marker
or a date form. -/
def isValidModule (bracket : List Char) : Bool :=
  let inner := pyTrim (stripSquare bracket)
  let il := pyLower inner
  !(startsStatusWord il (("status").toList) || startsStatusWord il (("due").toList) ||
    startsStatusWord il (("duedate").toList) ||
    exactWordPat il (("pending").toList) || exactWordPat il (("resolved").toList) ||
    exactWordPat il (("done").toList) || exactWordPat il (("completed").toList) ||
    inProgressPat il ||
    is8Digits inner || isYMDPat inner || isMDPat inner || isMDYPat inner)

/-- The numbered-task-line pattern: digits, one of '.', ')', '、',
optional spaces, a non-empty remainder; returns the stripped content. -/
def taskLineMatch (line : List Char) : Option (List Char) :=
  let ds := line.takeWhile Char.isDigit
  if ds = [] then none
  else
    match line.drop ds.length with
    | c :: rest =>
      if c = '.' || c = ')' || c = '、' then
        (if rest = [] then none else some (pyTrim (rest.dropWhile isPySpace)))
      else none
    | [] => none

/-- TaskParser._is_middle_priority_marker. -/
def isMiddleMarker (line : List Char) : Bool :=
  let s := pyTrim (pyLower line)
  containsSeq (("middle priority").toList) s || containsSeq (("low priority").toList) s

/-- The per-message parse state: the active module context and the tasks
collected so far. -/
structure PState where
  moduleTag : List Char
  tasks : List PTask
deriving DecidableEq, Repr

/-- One iteration of TaskParser.parse's line loop (marker already
checked): a module line replaces the context when its first group is
valid; otherwise a numbered line is parsed and a successful candidate is
appended tagged with the active context. -/
def processLine (line : List Char) (st : PState) : PState :=
  match moduleMatch line with
  | some mods =>
    let fb := firstBracketGroup mods
    if decide (fb ≠ []) && isValidModule fb then { st with moduleTag := mods } else st
  | none =>
    match taskLineMatch line with
    | some content =>
      match parseTask content with
      | some t => { st with tasks := st.tasks ++ [{ t with moduleTag := st.moduleTag }] }
      | none => st
    | none => st

/-- TaskParser.parse's loop over the message's lines (each line stripped
first): when exclusion is enabled and the stripped line is a middle/low
priority marker, the loop breaks, abandoning the rest of the message. -/
def parseLines (excl : Bool) : List (List Char) → PState → PState
  | [], st => st
  | l :: rest, st =>
    let line := pyTrim l
    if excl && isMiddleMarker line then st
    else parseLines excl rest (processLine line st)

/-! ### Stats: the lifecycle walk (_process_tasks) -/

/-- The raw task dict appended by Stats.add: the parsed fields plus the
mail date; a missing or empty status is stored as "-".  (The dict's
owners_str, mail_subject, mail_id, module and attachment fields are
carried along unread by the walk and the scoring engine.) -/
structure RawTask where
  title : List Char
  owners : List (List Char)
  priority : Priority
  due : List Char
  status : List Char
  mail_date : Date
deriving DecidableEq, Repr

/-- Stats._task_key: lower-cased stripped title, due token and the
sorted owners, joined with '|' and ','. -/
def taskKey (t : RawTask) : List Char :=
  pyLower (pyTrim t.title) ++ '|' :: (t.due ++ '|' :: joinWith ',' (sortStrs t.owners))

inductive TStatus | completed | pending | in_progress
deriving DecidableEq, Repr

/-- A finalized task emitted by Stats._process_tasks. -/
structure FinalTask where
  title : List Char
  owners : List (List Char)
  priority : Priority
  due : List Char
  status : List Char
  mail_date : Date
  first_seen : Date
  last_seen : Date
  task_status : TStatus
  overdue_days : Nat
  days_spent : Int
deriving DecidableEq, Repr

/-- A tracker entry: identity key to first_seen / latest record / active
flag. -/
structure TrackEntry where
  first_seen : Date
  task_data : RawTask
  active : Bool
deriving DecidableEq, Repr

/-- Ordered-dict lookup: the value stored at the first (unique) matching
key. -/
def lookupA {α : Type} : List (List Char × α) → List Char → Option α
  | [], _ => none
  | (k0, v) :: r, k => if k0 = k then some v else lookupA r k

/-- The same-day dedup update: a new key is appended; an existing key
keeps its position and is replaced only by a strictly higher priority
copy. -/
def upsertDay (m : List (List Char × RawTask)) (k : List Char) (t : RawTask) :
    List (List Char × RawTask) :=
  match m with
  | [] => [(k, t)]
  | (k0, t0) :: rest =>
    if k0 = k then
      (if prioNum t0.priority < prioNum t.priority then (k0, t) else (k0, t0)) :: rest
    else (k0, t0) :: upsertDay rest k t

/-- The day_task_map built per date in Stats._process_tasks. -/
def dedupDay (ts : List RawTask) : List (List Char × RawTask) :=
  ts.foldl (fun m t => upsertDay m (taskKey t) t) []

def betterOf (b t : RawTask) : RawTask :=
  if prioNum b.priority < prioNum t.priority then t else b

/-- The record that wins a same-day conflict: the first copy of strictly
maximal priority among the key's copies, in order of appearance. -/
def pickBest : List RawTask → Option RawTask
  | [] => none
  | h :: r => some (r.foldl betterOf h)

def betterOpt (o : Option RawTask) (t : RawTask) : Option RawTask :=
  match o with
  | none => some t
  | some b => some (betterOf b t)

/-- The walk state across dates: tracker map, emitted finalized tasks,
the previous date's key set and the previous date. -/
structure WalkSt where
  tracker : List (List Char × TrackEntry)
  final : List FinalTask
  prevKeys : List (List Char)
  prevDate : Option Date
deriving Repr

/-- Mutation of the (unique) entry stored at key k, keeping its
position, as a Python dict value update does. -/
def setActive : List (List Char × TrackEntry) → List Char → Bool →
    List (List Char × TrackEntry)
  | [], _, _ => []
  | (k1, e1) :: r, k, b =>
    if k1 = k then (k1, { e1 with active := b }) :: r else (k1, e1) :: setActive r k b

/-- Replacement of the latest record stored at key k (position kept). -/
def updateData : List (List Char × TrackEntry) → List Char → RawTask →
    List (List Char × TrackEntry)
  | [], _, _ => []
  | (k1, e1) :: r, k, td =>
    if k1 = k then (k1, { e1 with task_data := td }) :: r
    else (k1, e1) :: updateData r k td

/-- Replacement of the whole entry stored at key k (position kept). -/
def setEntry : List (List Char × TrackEntry) → List Char → TrackEntry →
    List (List Char × TrackEntry)
  | [], _, _ => []
  | (k1, e1) :: r, k, e =>
    if k1 = k then (k1, e) :: r else (k1, e1) :: setEntry r k e

/-- The completed record emitted when an active key disappears: the
latest data with first_seen/last_seen filled in, overdue days computed
from first_seen to the previous date, and days_spent inclusive. -/
def mkCompleted (e : TrackEntry) (prevD : Date) : FinalTask :=
  { title := e.task_data.title, owners := e.task_data.owners,
    priority := e.task_data.priority, due := e.task_data.due,
    status := e.task_data.status, mail_date := e.task_data.mail_date,
    first_seen := e.first_seen, last_seen := prevD, task_status := .completed,
    overdue_days := calcOverdueV2 e.task_data.due e.first_seen prevD,
    days_spent := daysBetween e.first_seen prevD }

/-- One iteration of the completion loop over the previous date's keys:
a key absent today whose tracker entry is active is finalized COMPLETED
and deactivated. -/
def completeStep (d : Date) (currKeys : List (List Char)) (st : WalkSt) (k : List Char) :
    WalkSt :=
  if k ∈ currKeys then st
  else
    match lookupA st.tracker k with
    | some e =>
      if e.active then
        { st with final := st.final ++ [mkCompleted e (st.prevDate.getD d)],
                  tracker := setActive st.tracker k false }
      else st
    | none => st

/-- One iteration of the tracker update over today's deduplicated map: a
new or inactive key starts a fresh lifecycle (first_seen = today), an
active key has its latest record replaced wholesale. -/
def upsertStep (d : Date) (tr : List (List Char × TrackEntry)) (kv : List Char × RawTask) :
    List (List Char × TrackEntry) :=
  match lookupA tr kv.1 with
  | some e =>
    if e.active then updateData tr kv.1 kv.2 else setEntry tr kv.1 ⟨d, kv.2, true⟩
  | none => tr ++ [(kv.1, ⟨d, kv.2, true⟩)]

/-- Processing of one date inside Stats._process_tasks: dedup the day's
tasks, finalize the active keys that vanished, then fold the day's map
into the tracker.  (The code iterates prev_date_keys as a Python set;
the iteration order is modelled as that date's map order, which no claim
depends on.) -/
def processOneDate (st : WalkSt) (d : Date) (dayTasks : List RawTask) : WalkSt :=
  let dayMap := dedupDay dayTasks
  let currKeys := dayMap.map Prod.fst
  let st1 := st.prevKeys.foldl (completeStep d currKeys) st
  { tracker := dayMap.foldl (upsertStep d) st1.tracker,
    final := st1.final,
    prevKeys := currKeys,
    prevDate := some d }

/-- The still-open finalization rule of Stats._process_tasks: pending
exactly when the lower-cased status text is one of "pending", "hold",
"blocked"; in_progress otherwise. -/
def openStatusOf (status : List Char) : TStatus :=
  let sv := pyLower status
  if sv = ("pending").toList ∨ sv = ("hold").toList ∨ sv = ("blocked").toList
  then TStatus.pending else TStatus.in_progress

/-- A still-active key finalized after the last date: last_seen is the
last mail date, overdue days run from first_seen to today. -/
def finalizeOpen (e : TrackEntry) (lastD today : Date) : FinalTask :=
  { title := e.task_data.title, owners := e.task_data.owners,
    priority := e.task_data.priority, due := e.task_data.due,
    status := e.task_data.status, mail_date := e.task_data.mail_date,
    first_seen := e.first_seen, last_seen := lastD,
    task_status := openStatusOf e.task_data.status,
    overdue_days := calcOverdueV2 e.task_data.due e.first_seen today,
    days_spent := daysBetween e.first_seen lastD }

/-- Stats._process_tasks (app.py lines 423-492): group the raw tasks by
mail date, walk the distinct dates in ascending order maintaining the
tracker, and finalize every still-active key against today. -/
def processTasks (raw : List RawTask) (today : Date) : List FinalTask :=
  match raw with
  | [] => []
  | _ :: _ =>
    let dates := sortDates (dedupFirst (raw.map (fun t => t.mail_date)))
    let st := dates.foldl
      (fun s d => processOneDate s d (raw.filter (fun t => decide (t.mail_date = d))))
      ⟨[], [], [], none⟩
    let lastD := dates.getLastD ⟨0, 0, 0⟩
    st.final ++ (st.tracker.filter (fun p => p.2.active)).map
      (fun p => finalizeOpen p.2 lastD today)

/-! ### Stats.summary: the scoring engine -/

/-- Python round() as exact rational rounding (round-half-to-even); the
values arising in the claims are far from representation-boundary
ties. -/
def pyRoundInt (q : ℚ) : Int :=
  let f := q.floor
  let r := q - (f : ℚ)
  if r < 1/2 then f else if (1 : ℚ)/2 < r then f + 1
  else if f % 2 = 0 then f else f + 1

/-- Python round(x, 1). -/
def pyRound1 (q : ℚ) : ℚ := ((pyRoundInt (10 * q) : ℚ)) / 10

/-- One member's contribution row as built by Stats.summary. -/
structure Contribution where
  name : List Char
  task_count : Nat
  high : Nat
  medium : Nat
  normal : Nat
  base_score : Nat
  overdue_count : Nat
  overdue_days : Nat
  completed_overdue_days : Nat
  active_overdue_days : Nat
  overdue_penalty : ℚ
  score : ℚ
  rank : Nat
deriving DecidableEq, Repr

/-- The per-member computation of Stats.summary (app.py lines 550-607):
m_tasks is every processed task owned by the member (no task_status
filter); base score weights high 3 / medium 2 / normal 1; the overdue
subset is every owned task with positive overdue_days; the penalty adds
0.5 per overdue task, the average overdue days over 7 when that average
exceeds 7, and 2 when the overdue rate exceeds 0.3; the final score is
max(0, base - penalty); penalty and score are rounded to one decimal. -/
def contribFor (n : List Char) (allTasks : List FinalTask) : Contribution :=
  let mTasks := allTasks.filter (fun t => t.owners.contains n)
  let hc := (mTasks.filter (fun t => decide (t.priority = Priority.high))).length
  let mc := (mTasks.filter (fun t => decide (t.priority = Priority.medium))).length
  let nc := (mTasks.filter (fun t => decide (t.priority = Priority.normal))).length
  let tc := mTasks.length
  let ws := hc * 3 + mc * 2 + nc * 1
  let odTasks := mTasks.filter (fun t => decide (0 < t.overdue_days))
  let oc := odTasks.length
  let tod : Nat := (odTasks.map (fun t => t.overdue_days)).sum
  let avg : ℚ := if 0 < oc then (tod : ℚ) / (oc : ℚ) else 0
  let cod := ((odTasks.filter (fun t => decide (t.task_status = TStatus.completed))).map
    (fun t => t.overdue_days)).sum
  let aod := ((odTasks.filter (fun t => decide (¬(t.task_status = TStatus.completed)))).map
    (fun t => t.overdue_days)).sum
  let pen : ℚ :=
    if 0 < tc then
      (oc : ℚ) * (1/2) + (if (7 : ℚ) < avg then avg / 7 else 0) +
        (if (3 : ℚ)/10 < (oc : ℚ) / (tc : ℚ) then 2 else 0)
    else 0
  let fs : ℚ := max 0 ((ws : ℚ) - pen)
  { name := n, task_count := tc, high := hc, medium := mc, normal := nc,
    base_score := ws, overdue_count := oc, overdue_days := tod,
    completed_overdue_days := cod, active_overdue_days := aod,
    overdue_penalty := pyRound1 pen, score := pyRound1 fs, rank := 0 }

def insContribDesc (x : Contribution) : List Contribution → List Contribution
  | [] => [x]
  | y :: ys => if y.score < x.score then x :: y :: ys else y :: insContribDesc x ys

/-- The stable descending sort by score applied to the contribution list
(Python list.sort with key -score is stable; ties keep the alphabetical
member order). -/
def sortContribDesc (l : List Contribution) : List Contribution :=
  l.foldl (fun acc x => insContribDesc x acc) []

def assignRanks (l : List Contribution) : List Contribution :=
  l.enum.map (fun p => { p.2 with rank := p.1 + 1 })

/-- The ranked contribution table of Stats.summary: one row per member
of the unique_members set in sorted order, sorted by descending score,
ranks assigned 1-based. -/
def summaryContributions (members : List (List Char)) (allTasks : List FinalTask) :
    List Contribution :=
  assignRanks (sortContribDesc
    ((sortStrs (dedupFirst members)).map (fun n => contribFor n allTasks)))

/-! ### Concrete instances used by individual claims -/

/-- A completed high-priority finalized task for Scenario C. -/
def mkScenCTask (owner : List Char) (od : Nat) : FinalTask :=
  { title := ("task").toList, owners := [owner], priority := .high,
    due := ("11/26").toList, status := ("-").toList, mail_date := ⟨2025, 11, 1⟩,
    first_seen := ⟨2025, 11, 1⟩, last_seen := ⟨2025, 11, 5⟩,
    task_status := .completed, overdue_days := od, days_spent := 5 }

/-- Scenario C input: Alice and Bob each own three completed
high-priority tasks; exactly one of Alice's is overdue by 10 days. -/
def scenC : List FinalTask :=
  [mkScenCTask (("Alice").toList) 10, mkScenCTask (("Alice").toList) 0,
   mkScenCTask (("Alice").toList) 0, mkScenCTask (("Bob").toList) 0,
   mkScenCTask (("Bob").toList) 0, mkScenCTask (("Bob").toList) 0]

/-- The ranked contribution table the scoring engine produces on the
Scenario C input. -/
def scenCOut : List Contribution :=
  summaryContributions [("Alice").toList, ("Bob").toList] scenC

/-- A finalized task with task_status pending, owned by Alice. -/
def pendTask : FinalTask :=
  { title := ("waiting").toList, owners := [("Alice").toList], priority := .high,
    due := ("11/26").toList, status := ("pending").toList, mail_date := ⟨2025, 11, 1⟩,
    first_seen := ⟨2025, 11, 1⟩, last_seen := ⟨2025, 11, 5⟩,
    task_status := .pending, overdue_days := 0, days_spent := 5 }

/-- A raw task whose status text is "hold" (no occurrence of the
substring "pending"). -/
def holdRaw : RawTask :=
  { title := ("fix bug").toList, owners := [("Alice").toList], priority := .normal,
    due := ("11/26").toList, status := ("hold").toList, mail_date := ⟨2025, 11, 1⟩ }

/-- The raw record of a task first seen on 2025-11-01 and finalized
completed, for the reappearance claim. -/
def c7raw1 : RawTask :=
  { title := ("fix bug").toList, owners := [("Alice").toList], priority := .high,
    due := ("11/26").toList, status := ("-").toList, mail_date := ⟨2025, 11, 1⟩ }

/-- The same identity key reappearing on 2025-11-10. -/
def c7raw2 : RawTask := { c7raw1 with mail_date := ⟨2025, 11, 10⟩ }

/-- A walk state in which c7raw1's key was already finalized completed
(inactive tracker entry, one emitted final task). -/
def c7st : WalkSt :=
  { tracker := [(taskKey c7raw1, ⟨⟨2025, 11, 1⟩, c7raw1, false⟩)],
    final := [mkCompleted ⟨⟨2025, 11, 1⟩, c7raw1, true⟩ ⟨2025, 11, 5⟩],
    prevKeys := [], prevDate := some ⟨2025, 11, 5⟩ }

/-! ### General lemmas about the same-day dedup and the tracker -/

theorem lookupA_upsertDay (m : List (List Char × RawTask)) (k0 : List Char) (t : RawTask)
    (k : List Char) :
    lookupA (upsertDay m k0 t) k =
      if k0 = k then betterOpt (lookupA m k) t else lookupA m k := by
  induction m with
  | nil => by_cases h : k0 = k <;> simp [upsertDay, lookupA, betterOpt, h]
  | cons p rest ih =>
    obtain ⟨k1, t1⟩ := p
    by_cases h1 : k1 = k0
    · subst h1
      by_cases hp : prioNum t1.priority < prioNum t.priority <;>
        by_cases h2 : k1 = k <;>
          simp [upsertDay, lookupA, h2, betterOpt, betterOf, hp]
    · by_cases h2 : k1 = k
      · subst h2
        have : ¬(k0 = k1) := fun h => h1 h.symm
        simp [upsertDay, h1, lookupA, this]
      · simp [upsertDay, h1, lookupA, h2, ih]

theorem foldl_upsertDay_lookup (ts : List RawTask) :
    ∀ (m : List (List Char × RawTask)) (k : List Char),
      lookupA (ts.foldl (fun acc t => upsertDay acc (taskKey t) t) m) k =
        (ts.filter (fun t => decide (taskKey t = k))).foldl betterOpt (lookupA m k) := by
  induction ts with
  | nil => intro m k; rfl
  | cons t ts ih =>
    intro m k
    simp only [List.foldl_cons, List.filter_cons]
    rw [ih]
    by_cases h : taskKey t = k <;> simp [h, lookupA_upsertDay]

theorem foldl_betterOpt_some (l : List RawTask) :
    ∀ (b : RawTask), l.foldl betterOpt (some b) = some (l.foldl betterOf b) := by
  induction l with
  | nil => intro b; rfl
  | cons x l ih => intro b; simp only [List.foldl_cons, betterOpt]; exact ih _

theorem foldl_betterOpt_none (l : List RawTask) : l.foldl betterOpt none = pickBest l := by
  cases l with
  | nil => rfl
  | cons h r => simp only [List.foldl_cons, pickBest, betterOpt]; exact foldl_betterOpt_some r h

theorem keys_upsertDay (m : List (List Char × RawTask)) (k0 : List Char) (t : RawTask) :
    (upsertDay m k0 t).map Prod.fst =
      if k0 ∈ m.map Prod.fst then m.map Prod.fst else m.map Prod.fst ++ [k0] := by
  induction m with
  | nil => simp [upsertDay]
  | cons p rest ih =>
    obtain ⟨k1, t1⟩ := p
    by_cases h : k1 = k0
    · subst h
      have hstep : upsertDay ((k1, t1) :: rest) k1 t =
          (if prioNum t1.priority < prioNum t.priority then (k1, t) else (k1, t1)) :: rest := by
        unfold upsertDay
        rw [if_pos rfl]
      have hmem : k1 ∈ ((k1, t1) :: rest).map Prod.fst := by
        rw [List.map_cons]
        exact List.mem_cons_self _ _
      rw [hstep, if_pos hmem]
      by_cases hp : prioNum t1.priority < prioNum t.priority
      · rw [if_pos hp, List.map_cons, List.map_cons]
      · rw [if_neg hp]
    · have hne : ¬(k0 = k1) := fun hx => h hx.symm
      by_cases h2 : k0 ∈ rest.map Prod.fst <;>
        simp [upsertDay, h, ih, h2, hne]

theorem nodup_keys_upsertDay (m : List (List Char × RawTask)) (k0 : List Char) (t : RawTask)
    (h : (m.map Prod.fst).Nodup) : ((upsertDay m k0 t).map Prod.fst).Nodup := by
  rw [keys_upsertDay]
  by_cases hm : k0 ∈ m.map Prod.fst
  · simpa [hm] using h
  · rw [if_neg hm]
    simp [List.nodup_append, h, hm]

theorem nodup_keys_foldl_upsertDay (ts : List RawTask) :
    ∀ (m : List (List Char × RawTask)), (m.map Prod.fst).Nodup →
      (((ts.foldl (fun acc t => upsertDay acc (taskKey t) t) m)).map Prod.fst).Nodup := by
  induction ts with
  | nil => intro m h; exact h
  | cons t ts ih =>
    intro m h
    exact ih _ (nodup_keys_upsertDay _ _ _ h)

theorem nodup_keys_dedupDay (ts : List RawTask) : ((dedupDay ts).map Prod.fst).Nodup :=
  nodup_keys_foldl_upsertDay ts [] (by simp)

theorem lookupA_mem {α : Type} (m : List (List Char × α)) (k : List Char) (v : α)
    (h : lookupA m k = some v) : (k, v) ∈ m := by
  induction m with
  | nil => cases h
  | cons p rest ih =>
    obtain ⟨k1, v1⟩ := p
    simp only [lookupA] at h
    split at h
    · rename_i heq
      cases h
      subst heq
      exact List.mem_cons_self _ _
    · exact List.mem_cons_of_mem _ (ih h)

theorem lookupA_setActive_ne (tr : List (List Char × TrackEntry)) (k0 k : List Char)
    (b : Bool) (h : ¬(k0 = k)) : lookupA (setActive tr k0 b) k = lookupA tr k := by
  induction tr with
  | nil => rfl
  | cons p rest ih =>
    obtain ⟨k1, e1⟩ := p
    by_cases h1 : k1 = k0
    · subst h1
      simp [setActive, lookupA, h, ih]
    · by_cases h2 : k1 = k
      · subst h2
        simp [setActive, lookupA, h1]
      · simp [setActive, lookupA, h1, h2, ih]

theorem lookupA_updateData_ne (tr : List (List Char × TrackEntry)) (k0 k : List Char)
    (td : RawTask) (h : ¬(k0 = k)) : lookupA (updateData tr k0 td) k = lookupA tr k := by
  induction tr with
  | nil => rfl
  | cons p rest ih =>
    obtain ⟨k1, e1⟩ := p
    by_cases h1 : k1 = k0
    · subst h1
      simp [updateData, lookupA, h, ih]
    · by_cases h2 : k1 = k
      · subst h2
        simp [updateData, lookupA, h1]
      · simp [updateData, lookupA, h1, h2, ih]

theorem lookupA_setEntry_ne (tr : List (List Char × TrackEntry)) (k0 k : List Char)
    (e : TrackEntry) (h : ¬(k0 = k)) : lookupA (setEntry tr k0 e) k = lookupA tr k := by
  induction tr with
  | nil => rfl
  | cons p rest ih =>
    obtain ⟨k1, e1⟩ := p
    by_cases h1 : k1 = k0
    · subst h1
      simp [setEntry, lookupA, h, ih]
    · by_cases h2 : k1 = k
      · subst h2
        simp [setEntry, lookupA, h1]
      · simp [setEntry, lookupA, h1, h2, ih]

theorem lookupA_setEntry_self (tr : List (List Char × TrackEntry)) (k : List Char)
    (e : TrackEntry) :
    ∀ (e0 : TrackEntry), lookupA tr k = some e0 → lookupA (setEntry tr k e) k = some e := by
  induction tr with
  | nil => intro e0 h; cases h
  | cons p rest ih =>
    intro e0 h
    obtain ⟨k1, e1⟩ := p
    by_cases h1 : k1 = k
    · subst h1; simp [setEntry, lookupA]
    · simp only [lookupA, if_neg h1] at h
      simp only [setEntry, if_neg h1]
      simp only [lookupA, if_neg h1]
      exact ih e0 h

theorem lookupA_append_ne (tr : List (List Char × TrackEntry)) (k1 k : List Char)
    (x : TrackEntry) (h : ¬(k1 = k)) :
    lookupA (tr ++ [(k1, x)]) k = lookupA tr k := by
  induction tr with
  | nil => simp [lookupA, h]
  | cons p rest ih =>
    obtain ⟨k2, e2⟩ := p
    by_cases h2 : k2 = k <;> simp [lookupA, h2, ih]

theorem upsertStep_lookup_ne (d : Date) (tr : List (List Char × TrackEntry))
    (kv : List Char × RawTask) (k : List Char) (h : ¬(kv.1 = k)) :
    lookupA (upsertStep d tr kv) k = lookupA tr k := by
  unfold upsertStep
  cases hl : lookupA tr kv.1 with
  | none => exact lookupA_append_ne _ _ _ _ h
  | some e =>
    by_cases ha : e.active
    · simpa [ha] using lookupA_updateData_ne tr kv.1 k kv.2 h
    · simpa [ha] using lookupA_setEntry_ne tr kv.1 k ⟨d, kv.2, true⟩ h

theorem upsertStep_self_inactive (d : Date) (tr : List (List Char × TrackEntry))
    (k : List Char) (td : RawTask) (e : TrackEntry)
    (hl : lookupA tr k = some e) (ha : e.active = false) :
    lookupA (upsertStep d tr (k, td)) k = some ⟨d, td, true⟩ := by
  unfold upsertStep
  simp only [hl, ha]
  simp only [Bool.false_eq_true, if_false]
  exact lookupA_setEntry_self tr k ⟨d, td, true⟩ e hl

theorem foldl_upsertStep_notmem (d : Date) (entries : List (List Char × RawTask)) :
    ∀ (tr : List (List Char × TrackEntry)) (k : List Char),
      ¬(k ∈ entries.map Prod.fst) →
      lookupA (entries.foldl (upsertStep d) tr) k = lookupA tr k := by
  induction entries with
  | nil => intro tr k _; rfl
  | cons kv rest ih =>
    intro tr k h
    simp only [List.map_cons, List.mem_cons] at h
    push_neg at h
    simp only [List.foldl_cons]
    rw [ih _ _ h.2]
    exact upsertStep_lookup_ne d tr kv k (fun hx => h.1 hx.symm)

theorem foldl_upsertStep_main (d : Date) (entries : List (List Char × RawTask)) :
    ∀ (tr : List (List Char × TrackEntry)) (k : List Char) (td : RawTask) (e : TrackEntry),
      (entries.map Prod.fst).Nodup → (k, td) ∈ entries →
      lookupA tr k = some e → e.active = false →
      lookupA (entries.foldl (upsertStep d) tr) k = some ⟨d, td, true⟩ := by
  induction entries with
  | nil => intro _ _ _ _ _ hmem; cases hmem
  | cons kv rest ih =>
    intro tr k td e hnd hmem hl ha
    obtain ⟨k1, v1⟩ := kv
    simp only [List.map_cons, List.nodup_cons] at hnd
    rcases List.mem_cons.mp hmem with hhd | htl
    · have hk : k = k1 := congrArg Prod.fst hhd
      have hv : td = v1 := congrArg Prod.snd hhd
      subst hk; subst hv
      simp only [List.foldl_cons]
      rw [foldl_upsertStep_notmem d rest _ _ hnd.1]
      exact upsertStep_self_inactive d tr k td e hl ha
    · have hk1 : ¬(k1 = k) := by
        intro hx
        subst hx
        exact hnd.1 (List.mem_map.mpr ⟨(k1, td), htl, rfl⟩)
      simp only [List.foldl_cons]
      exact ih _ k td e hnd.2 htl
        (by rw [upsertStep_lookup_ne d tr (k1, v1) k hk1]; exact hl) ha

theorem foldl_completeStep_props (d : Date) (ck : List (List Char)) (k : List Char)
    (hk : k ∈ ck) :
    ∀ (ks : List (List Char)) (st : WalkSt),
      lookupA ((ks.foldl (completeStep d ck) st).tracker) k = lookupA st.tracker k ∧
      ∃ l, (ks.foldl (completeStep d ck) st).final = st.final ++ l := by
  intro ks
  induction ks with
  | nil => intro st; exact ⟨rfl, [], by simp⟩
  | cons k1 ks ih =>
    intro st
    have hstep :
        lookupA (completeStep d ck st k1).tracker k = lookupA st.tracker k ∧
        ∃ l, (completeStep d ck st k1).final = st.final ++ l := by
      unfold completeStep
      by_cases hc : k1 ∈ ck
      · exact ⟨by simp [hc], [], by simp [hc]⟩
      · have hne : ¬(k1 = k) := fun hx => hc (hx ▸ hk)
        simp only [if_neg hc]
        cases hl : lookupA st.tracker k1 with
        | none => exact ⟨rfl, [], by simp⟩
        | some e =>
          by_cases ha : e.active
          · refine ⟨?_, [mkCompleted e (st.prevDate.getD d)], by simp [ha]⟩
            simp only [ha, if_pos]
            exact lookupA_setActive_ne st.tracker k1 k false hne
          · exact ⟨by simp [ha], [], by simp [ha]⟩
    obtain ⟨h1, l1, hf1⟩ := hstep
    obtain ⟨h2, l2, hf2⟩ := ih (completeStep d ck st k1)
    refine ⟨by rw [List.foldl_cons, h2, h1], l1 ++ l2, ?_⟩
    rw [List.foldl_cons, hf2, hf1, List.append_assoc]

/-! ### Further general lemmas used by the claims -/

theorem mem_pyTrim {a : Char} {s : List Char} (h : a ∈ pyTrim s) : a ∈ s := by
  unfold pyTrim at h
  rw [List.mem_reverse] at h
  have h2 := (List.dropWhile_sublist (l := (s.dropWhile isPySpace).reverse)
    (p := isPySpace)).subset h
  rw [List.mem_reverse] at h2
  exact (List.dropWhile_sublist (l := s) (p := isPySpace)).subset h2

theorem map_slash_id (s : List Char) (h : ¬('/' ∈ s)) :
    s.map (fun c => if c = '/' then '-' else c) = s := by
  induction s with
  | nil => rfl
  | cons c r ih =>
    have hc : ¬(c = '/') := fun hx => h (hx ▸ List.mem_cons_self _ _)
    simp only [List.map_cons, if_neg hc, List.cons.injEq, true_and]
    exact ih (fun hx => h (List.mem_cons_of_mem _ hx))

theorem splitChars_no_sep (sep : Char) (s : List Char) (h : ¬(sep ∈ s)) :
    splitChars [sep] s = [s] := by
  induction s with
  | nil => rfl
  | cons c r ih =>
    have hc : ¬(c = sep) := fun hx => h (hx ▸ List.mem_cons_self _ _)
    have hr : ¬(sep ∈ r) := fun hx => h (List.mem_cons_of_mem _ hx)
    simp only [splitChars, List.contains_cons, List.contains_nil, Bool.or_false]
    rw [ih hr]
    simp [beq_iff_eq, fun hx => hc hx]

/-! ### Claim theorems -/

/-- C1 counterexample: on the Scenario C input the scoring engine gives
Alice a rounded penalty of 3.9 and a rounded score of 5.1, not the
claimed 0.5 + 10/7 (rounding to 1.9) and 7.1: with one of three tasks
overdue the overdue rate 1/3 exceeds 0.3, so the +2 rate term fires. -/
theorem scenarioC_claim_numbers_false :
    scenCOut.map (fun c => (c.name, c.overdue_penalty, c.score)) =
      [(("Bob").toList, (0 : ℚ), (9 : ℚ)), (("Alice").toList, 39/10, 51/10)] ∧
    ¬((39 : ℚ)/10 = pyRound1 ((1 : ℚ)/2 + 10/7)) ∧ ¬((51 : ℚ)/10 = 71/10) := by
  decide

/-- C1 (amended): on the Scenario C input the engine yields for Bob
penalty 0, score 9, rank 1, and for Alice penalty
round(0.5 + 10/7 + 2) = 3.9 and score round(9 - (0.5 + 10/7 + 2)) = 5.1,
rank 2; Bob ranks above Alice. -/
theorem scenarioC_code_scores :
    scenCOut.map (fun c => (c.name, c.overdue_penalty, c.score, c.rank)) =
      [(("Bob").toList, (0 : ℚ), (9 : ℚ), 1),
       (("Alice").toList, pyRound1 ((1 : ℚ)/2 + 10/7 + 2),
        pyRound1 ((9 : ℚ) - ((1 : ℚ)/2 + 10/7 + 2)), 2)] := by
  decide

/-- C2 counterexample: a pending task owned by Alice changes Alice's
contribution entry (its task_count, among others), so the scoring engine
does not restrict to non-pending tasks. -/
theorem pending_task_affects_contribution :
    pendTask.task_status = TStatus.pending ∧
    ¬(contribFor (("Alice").toList) [pendTask] = contribFor (("Alice").toList) []) := by
  decide

/-- C2 (amended): the scoring engine computes each member's contribution
entry over every finalized task owned by the member, with no task_status
filter: the entry depends only on the owned sublist, and task_count is
the full count of owned tasks, pending ones included. -/
theorem contribution_scope_all_owned (n : List Char) (ts : List FinalTask) :
    contribFor n ts = contribFor n (ts.filter (fun t => t.owners.contains n)) ∧
    (contribFor n ts).task_count = (ts.filter (fun t => t.owners.contains n)).length := by
  refine ⟨?_, rfl⟩
  simp only [contribFor, List.filter_filter, Bool.and_self]

/-- C3 counterexample: the line "Fix bug – Alice [Due: 1126]" is parsed
with the verbatim due token "1126" (no month/day normalization), and the
overdue calculator yields 0 for it, whereas the claimed 11/26 reading
would yield 35 by 2025-12-31. -/
theorem slashless_due_kept_verbatim :
    (parseTask (("Fix bug – Alice [Due: 1126]").toList)).map (fun t => t.due_date) =
      some (("1126").toList) ∧
    ¬((("1126").toList : List Char) = ("11/26").toList) ∧
    calcOverdueV2 (("1126").toList) ⟨2025, 11, 1⟩ ⟨2025, 12, 31⟩ = 0 ∧
    calcOverdueV2 (("11/26").toList) ⟨2025, 11, 1⟩ ⟨2025, 12, 31⟩ = 35 := by
  decide

/-- C3 (amended): a due token containing neither a slash nor a dash is a
single split component, so the overdue calculator returns 0 for it. -/
theorem calc_overdue_slashless_zero (due : List Char) (f e : Date)
    (h1 : ¬('-' ∈ due)) (h2 : ¬('/' ∈ due)) : calcOverdueV2 due f e = 0 := by
  by_cases h0 : due = []
  · subst h0; rfl
  · have hmap : due.map (fun c => if c = '/' then '-' else c) = due := map_slash_id due h2
    have hmem : ¬('-' ∈ pyTrim due) := fun hx => h1 (mem_pyTrim hx)
    have hsplit : splitChars ['-'] (pyTrim due) = [pyTrim due] :=
      splitChars_no_sep '-' (pyTrim due) hmem
    unfold calcOverdueV2 splitChar
    rw [if_neg h0]
    simp only [hmap, hsplit]

/-- C3 witness. -/
theorem calc_overdue_slashless_zero_witness :
    calcOverdueV2 (("1126").toList) ⟨2025, 11, 1⟩ ⟨2025, 12, 31⟩ = 0 :=
  calc_overdue_slashless_zero (("1126").toList) ⟨2025, 11, 1⟩ ⟨2025, 12, 31⟩
    (by decide) (by decide)

/-- C4 counterexample: for due "02/01", first seen 2025-01-10 and
end date ("today") 2025-12-31, the code resolves the year against
first_seen only and reports 333 overdue days, while the claimed
procedure (forward test against today, backward roll) resolves to
2026-02-01 and reports 0. -/
theorem overdue_resolution_ignores_today :
    calcOverdueV2 (("02/01").toList) ⟨2025, 1, 10⟩ ⟨2025, 12, 31⟩ = 333 ∧
    specOverdueC4 (("02/01").toList) ⟨2025, 1, 10⟩ ⟨2025, 12, 31⟩ = 0 ∧
    ¬(calcOverdueV2 (("02/01").toList) ⟨2025, 1, 10⟩ ⟨2025, 12, 31⟩ =
      specOverdueC4 (("02/01").toList) ⟨2025, 1, 10⟩ ⟨2025, 12, 31⟩) := by
  decide

/-- C4 (amended): for a two-component due token the calculator resolves
the year only against first_seen - candidate in first_seen's year,
rolled forward one year exactly when more than 180 days before
first_seen; no test against the end date and no backward roll - and
returns max(0, end - resolved) in days. -/
theorem calc_overdue_two_part_resolution (due p1 p2 : List Char) (m d : Int)
    (first endD : Date)
    (h0 : ¬(due = []))
    (hs : splitChar '-' (pyTrim (due.map (fun c => if c = '/' then '-' else c))) = [p1, p2])
    (hm : parsePyInt p1 = some m) (hd : parsePyInt p2 = some d) :
    calcOverdueV2 due first endD =
      (match resolveTwoPart m d first with
       | some r => ((civil endD : Int) - (civil r : Int)).toNat
       | none => 0) := by
  unfold splitChar at hs
  unfold calcOverdueV2 resolveTwoPart splitChar
  rw [if_neg h0]
  simp only [hs, hm, hd]
  cases hmk : mkDateI (first.year : Int) m d with
  | none => rfl
  | some cand =>
    by_cases hroll : (civil cand : Int) < (civil first : Int) - 180
    · simp only [if_pos hroll]
    · simp only [if_neg hroll]

/-- C4 witness. -/
theorem calc_overdue_two_part_resolution_witness :
    calcOverdueV2 (("11/26").toList) ⟨2025, 11, 1⟩ ⟨2025, 12, 31⟩ = 35 := by
  rw [calc_overdue_two_part_resolution (("11/26").toList) (("11").toList) (("26").toList)
    11 26 ⟨2025, 11, 1⟩ ⟨2025, 12, 31⟩ (by decide) (by decide) (by decide) (by decide)]
  decide

/-- C5 counterexample: a still-open task whose status text is "hold"
(which does not contain the substring "pending") is finalized with
task_status pending by the lifecycle walk. -/
theorem open_status_hold_pending :
    (processTasks [holdRaw] ⟨2025, 12, 31⟩).map (fun t => t.task_status) =
      [TStatus.pending] ∧
    containsSeq (("pending").toList) (pyLower (("hold").toList)) = false := by
  decide

/-- C5 (amended): the still-open finalization assigns task_status
pending exactly when the lower-cased status text is one of "pending",
"hold", "blocked", and in_progress otherwise - an exact membership test,
not a substring test. -/
theorem open_status_exact_membership (e : TrackEntry) (lD tD : Date) :
    (finalizeOpen e lD tD).task_status = TStatus.pending ↔
      (pyLower e.task_data.status = ("pending").toList ∨
       pyLower e.task_data.status = ("hold").toList ∨
       pyLower e.task_data.status = ("blocked").toList) := by
  show openStatusOf e.task_data.status = TStatus.pending ↔ _
  unfold openStatusOf
  dsimp only
  split
  · rename_i hcond
    exact iff_of_true rfl hcond
  · rename_i hcond
    exact iff_of_false (by decide) hcond

/-- C6: in each date's deduplicated map every key stores exactly one
record - the first copy of strictly maximal priority among that key's
copies of the day (strictly higher priority replaces, ties keep the
first-seen copy) - so the discarded lower-priority copies never reach
the tracker walk, which consumes only this map. -/
theorem dedup_day_characterization (ts : List RawTask) (k : List Char) :
    lookupA (dedupDay ts) k = pickBest (ts.filter (fun t => decide (taskKey t = k))) ∧
    ((dedupDay ts).map Prod.fst).Nodup := by
  constructor
  · have h := foldl_upsertDay_lookup ts [] k
    simp only [lookupA] at h
    rw [foldl_betterOpt_none] at h
    unfold dedupDay
    exact h
  · exact nodup_keys_dedupDay ts

/-- C7: when a key whose tracker entry was finalized (inactive) is
present again in a date's deduplicated map, processing that date stores
a brand-new lifecycle entry - first_seen equal to the reappearance date,
the reappearing record, active - and only appends to the finalized list,
leaving every previously emitted FinalizedTask unchanged. -/
theorem completed_key_restarts_lifecycle (st : WalkSt) (d : Date) (ts : List RawTask)
    (k : List Char) (e : TrackEntry) (td : RawTask)
    (h1 : lookupA st.tracker k = some e) (h2 : e.active = false)
    (h3 : lookupA (dedupDay ts) k = some td) :
    lookupA (processOneDate st d ts).tracker k = some ⟨d, td, true⟩ ∧
    ∃ l, (processOneDate st d ts).final = st.final ++ l := by
  have hnd : ((dedupDay ts).map Prod.fst).Nodup := nodup_keys_dedupDay ts
  have hmem : (k, td) ∈ dedupDay ts := lookupA_mem _ _ _ h3
  have hkc : k ∈ (dedupDay ts).map Prod.fst := List.mem_map.mpr ⟨(k, td), hmem, rfl⟩
  have hprops := foldl_completeStep_props d ((dedupDay ts).map Prod.fst) k hkc
    st.prevKeys st
  constructor
  · show lookupA ((dedupDay ts).foldl (upsertStep d)
      (st.prevKeys.foldl (completeStep d ((dedupDay ts).map Prod.fst)) st).tracker) k = _
    exact foldl_upsertStep_main d (dedupDay ts) _ k td e hnd hmem
      (by rw [hprops.1]; exact h1) h2
  · obtain ⟨l, hl⟩ := hprops.2
    exact ⟨l, hl⟩

/-- C7 witness. -/
theorem completed_key_restarts_lifecycle_witness :
    lookupA (processOneDate c7st ⟨2025, 11, 10⟩ [c7raw2]).tracker (taskKey c7raw1) =
      some ⟨⟨2025, 11, 10⟩, c7raw2, true⟩ :=
  (completed_key_restarts_lifecycle c7st ⟨2025, 11, 10⟩ [c7raw2] (taskKey c7raw1)
    ⟨⟨2025, 11, 1⟩, c7raw1, false⟩ c7raw2 (by decide) rfl (by decide)).1

/-- C8: a task line in which neither the bracketed Due form nor the bare
bracketed month/day form occurs (searched in the content left after the
star-priority prefix) produces no task record: the parser returns none,
and being a total function it raises nothing. -/
theorem parse_task_none_without_due (content : List Char)
    (h1 : searchDue (starSplit content).2 = none)
    (h2 : searchBare (starSplit content).2 = none) :
    parseTask content = none := by
  unfold parseTask
  simp only [h1, h2]

/-- C8 witness. -/
theorem parse_task_none_without_due_witness :
    parseTask (("Fix bug – Alice").toList) = none :=
  parse_task_none_without_due (("Fix bug – Alice").toList) (by decide) (by decide)

/-- C9: with middle/low-priority exclusion enabled, once a line whose
stripped text contains "middle priority" or "low priority"
(case-insensitively) is reached, the parse state is exactly the state
after the preceding lines: neither the marker line nor any later line
adds a task or changes the module context. -/
theorem parse_halts_at_marker (pre : List (List Char)) (l : List Char)
    (post : List (List Char)) (st : PState)
    (h : isMiddleMarker (pyTrim l) = true) :
    parseLines true (pre ++ l :: post) st = parseLines true pre st := by
  induction pre generalizing st with
  | nil => simp [parseLines, h]
  | cons p pr ih =>
    simp only [List.cons_append, parseLines, Bool.true_and]
    by_cases hp : isMiddleMarker (pyTrim p) = true
    · simp [hp]
    · simp only [Bool.not_eq_true] at hp
      simp [hp, ih]

/-- C9 witness. -/
theorem parse_halts_at_marker_witness :
    parseLines true
      [("1. Fix bug – Alice [11/26]").toList,
       ("Below is middle priority").toList,
       ("2. Other task – Bob [11/27]").toList] ⟨[], []⟩ =
    parseLines true [("1. Fix bug – Alice [11/26]").toList] ⟨[], []⟩ :=
  parse_halts_at_marker [("1. Fix bug – Alice [11/26]").toList]
    (("Below is middle priority").toList)
    [("2. Other task – Bob [11/27]").toList] ⟨[], []⟩ (by decide)

/-- C10: a due token with three numeric components year/month/day is
resolved directly from those components, with 2000 added to a year below
100; the result is max(0, end - that date) and is independent of
first_seen, so the 180-day year-resolution heuristic never applies. -/
theorem calc_overdue_three_part (due p1 p2 p3 : List Char) (y m d : Int)
    (f1 f2 endD : Date)
    (h0 : ¬(due = []))
    (hs : splitChar '-' (pyTrim (due.map (fun c => if c = '/' then '-' else c))) =
      [p1, p2, p3])
    (hy : parsePyInt p1 = some y) (hm : parsePyInt p2 = some m)
    (hd : parsePyInt p3 = some d) :
    calcOverdueV2 due f1 endD =
      (match mkDateI (if y < 100 then y + 2000 else y) m d with
       | some r => ((civil endD : Int) - (civil r : Int)).toNat
       | none => 0) ∧
    calcOverdueV2 due f1 endD = calcOverdueV2 due f2 endD := by
  have hbranch : ∀ (f : Date), calcOverdueV2 due f endD =
      (match mkDateI (if y < 100 then y + 2000 else y) m d with
       | some r => ((civil endD : Int) - (civil r : Int)).toNat
       | none => 0) := by
    intro f
    unfold splitChar at hs
    unfold calcOverdueV2 splitChar
    rw [if_neg h0]
    simp only [hs, hy, hm, hd]
  exact ⟨hbranch f1, by rw [hbranch f1, hbranch f2]⟩

/-- C10 witness: "25/11/26" resolves to 2025-11-26 (35 days before
2025-12-31) for any first_seen. -/
theorem calc_overdue_three_part_witness :
    calcOverdueV2 (("25/11/26").toList) ⟨2020, 1, 1⟩ ⟨2025, 12, 31⟩ = 35 ∧
    calcOverdueV2 (("25/11/26").toList) ⟨2020, 1, 1⟩ ⟨2025, 12, 31⟩ =
      calcOverdueV2 (("25/11/26").toList) ⟨2024, 6, 6⟩ ⟨2025, 12, 31⟩ := by
  have h := calc_overdue_three_part (("25/11/26").toList) (("25").toList)
    (("11").toList) (("26").toList) 25 11 26 ⟨2020, 1, 1⟩ ⟨2024, 6, 6⟩ ⟨2025, 12, 31⟩
    (by decide) (by decide) (by decide) (by decide) (by decide)
  exact ⟨by rw [h.1]; decide, h.2⟩

end TaskDash
